import Mathlib

/-!
Verification of the ordered frame-multiplexing and reel-writing engine of
dcpomatic (`src/lib/writer.cc`, here `src/unnamed/part_001`).

The `Writer` receives encoded video frames out of order from parallel
encoder workers, queues them as `QueueItem`s keyed by
(reel index, reel-local frame, eye), and a single consumer thread drains
the queue in strict key order, spilling full frames to disk when the
in-memory count exceeds a ceiling.

Everything below is translated from `Writer`'s code in part_001.
`ReelWriter`, the `Eyes` enum's numeric values and the DCPTime headers are
not part of the provided sources; the few facts needed about them
(cursor fields, initial cursor, enum order, time conversion) are modelled
from the specification and marked as such in their doc comments.
-/

namespace DcpWriter

/-- Eyes designator for a frame: `EYES_LEFT`, `EYES_RIGHT`, `EYES_BOTH`
(2D).  The enum itself is declared outside the provided sources. -/
inductive Eyes where
  | Left
  | Right
  | Both
deriving DecidableEq, Repr

/-- Modelled from the spec: the integer values of the `Eyes` enum used by
`static_cast<int>` in `operator<`, with eyes "ordered Left < Right < Both
for tie-break purposes". -/
def Eyes.rank : Eyes → Nat
  | .Left => 0
  | .Right => 1
  | .Both => 2

/-- The three kinds of queued video unit (`QueueItem::Type`):
full payload, fake placeholder, repeat-of-previous. -/
inductive QType where
  | FULL
  | FAKE
  | REPEAT
deriving DecidableEq, Repr

/-- An encoded JPEG2000 payload (class `Data`), modelled as its bytes. -/
abbrev Data := List Nat

/-- One pending video unit (`struct QueueItem`).  `encoded` is the
`shared_ptr`-held payload: `none` models a null pointer (payload spilled
to disk, or a FAKE/REPEAT item which carries none).  `frame` is the
reel-local frame index, always non-negative.  `size` is only meaningful
for FAKE items; the source leaves it uninitialised elsewhere and we use 0. -/
structure QueueItem where
  type : QType
  encoded : Option Data
  size : Nat
  reel : Nat
  frame : Nat
  eyes : Eyes
deriving DecidableEq, Repr

/-- `operator< (QueueItem, QueueItem)` from part_001 lines 542-554:
compare reel, then frame, then the eyes' integer values. -/
def qlt (a b : QueueItem) : Bool :=
  if a.reel ≠ b.reel then decide (a.reel < b.reel)
  else if a.frame ≠ b.frame then decide (a.frame < b.frame)
  else decide (a.eyes.rank < b.eyes.rank)

/-- `operator== (QueueItem, QueueItem)` from part_001 lines 556-560:
equality of the (reel, frame, eyes) key, payload ignored. -/
def qeq (a b : QueueItem) : Bool :=
  a.reel == b.reel && a.frame == b.frame && a.eyes == b.eyes

/-- Stable insertion of an item into a `qlt`-sorted list: the new item
goes before the first element not strictly below it. -/
def insertSorted (x : QueueItem) : List QueueItem → List QueueItem
  | [] => [x]
  | y :: ys => if qlt y x then y :: insertSorted x ys else x :: y :: ys

/-- Model of `_queue.sort ()` (stable sort by `operator<`). -/
def sortQueue (l : List QueueItem) : List QueueItem :=
  l.foldr insertSorted []

/-- A time period `[fromT, toT)` in DCPTime units (class `DCPTimePeriod`,
declared outside the provided sources). -/
structure DCPTimePeriod where
  fromT : Nat
  toT : Nat
deriving DecidableEq, Repr

/-- Modelled from the spec: `DCPTimePeriod::contains`, true iff
`fromT <= t && t < toT`. -/
def DCPTimePeriod.containsT (p : DCPTimePeriod) (t : Nat) : Bool :=
  decide (p.fromT ≤ t ∧ t < p.toT)

/-- Modelled from the spec: `DCPTime::from_frames (f, rate)`, converting a
frame count to DCPTime ticks at 96000 ticks per second. -/
def fromFrames (f rate : Nat) : Nat :=
  f * 96000 / rate

/-- Modelled from the spec: `DCPTime::frames_floor (rate)`. -/
def framesFloor (t rate : Nat) : Nat :=
  t * rate / 96000

/-- The per-reel state the `Writer` observes (class `ReelWriter`, declared
outside the provided sources; fields modelled from the spec §4.2:
the reel's time period, its start frame, the video cursor
`(last_written_video_frame, last_written_eyes)`, the bound
`first_nonexistant_frame` and the audio-frame total). -/
structure ReelWriter where
  period : DCPTimePeriod
  startFrame : Nat
  last_written_video_frame : Int
  last_written_eyes : Eyes
  first_nonexistant_frame : Nat
  total_written_audio_frames : Nat
deriving DecidableEq, Repr

/-- Modelled from the spec: a fresh `ReelWriter` has written nothing.
The cursor value that makes the spec's first-frame sequence readiness
(2D `Both`, and the Left eye in 3D) hold under the source predicate is
`last_written_video_frame = -1` with `last_written_eyes = Right`. -/
def ReelWriter.fresh (p : DCPTimePeriod) (start : Nat) : ReelWriter :=
  { period := p
    startFrame := start
    last_written_video_frame := -1
    last_written_eyes := .Right
    first_nonexistant_frame := 0
    total_written_audio_frames := 0 }

/-- Modelled from the spec: `ReelWriter::write` and its fake/repeat
variants update the cursor to the written (frame, eye) and keep
`first_nonexistant_frame` one past the highest frame written. -/
def ReelWriter.afterVideoWrite (r : ReelWriter) (frame : Nat) (eyes : Eyes) : ReelWriter :=
  { r with
    last_written_video_frame := (frame : Int)
    last_written_eyes := eyes
    first_nonexistant_frame := max r.first_nonexistant_frame (frame + 1) }

/-- Modelled from the spec: `ReelWriter::write (audio)` appends the buffer
and accumulates its frame count into `total_written_audio_frames`. -/
structure AudioBuffers where
  frames : Nat
deriving DecidableEq, Repr

/-- Audio append on a reel (see `AudioBuffers` above). -/
def ReelWriter.writeAudioBuf (r : ReelWriter) (b : AudioBuffers) : ReelWriter :=
  { r with total_written_audio_frames := r.total_written_audio_frames + b.frames }

/-- The linear scan of `Writer::video_reel`: index of the first reel
whose period contains the time `t`. -/
def scanReels (t : Nat) : List ReelWriter → Option Nat
  | [] => none
  | r :: rs =>
    if r.period.containsT t then some 0
    else (scanReels t rs).map (· + 1)

/-- `Writer::video_reel` (part_001 lines 574-585): convert the global
frame to a DCPTime and linearly scan the reels for the one whose period
contains it.  `none` models the `DCPOMATIC_ASSERT (i < _reels.size ())`
failure when no reel contains the frame. -/
def video_reel (reels : List ReelWriter) (rate : Nat) (frame : Nat) : Option Nat :=
  scanReels (fromFrames frame rate) reels

/-- The reel-local frame computed on submission
(`qi.frame = frame - _reels[qi.reel].start ()`). -/
def reel_local (reels : List ReelWriter) (rate : Nat) (frame : Nat) : Option Nat :=
  (video_reel reels rate frame).bind fun i =>
    (reels[i]?).map fun r => frame - r.startFrame

/-- `Writer::can_fake_write` (part_001 lines 507-519): make the frame
relative to the reel's start; a fake write is legal iff the result is
neither 0 nor at/past `first_nonexistant_frame`. -/
def can_fake_write (reels : List ReelWriter) (rate : Nat) (frame : Nat) : Option Bool :=
  (video_reel reels rate frame).bind fun i =>
    (reels[i]?).map fun reel =>
      let f := frame - reel.startFrame
      (f != 0) && decide (f < reel.first_nonexistant_frame)

/-- The `Writer` state guarded by `_state_mutex`: the reels, the pending
queue, the in-memory full-frame count `_queued_full_in_memory`, the
ceiling `_maximum_frames_in_memory`, the finish flag, the four progress
counters, and the audio cursor `_audio_reel` (an index; `reels.length`
models `_reels.end ()`).  `three_d` caches `_film->three_d ()`. -/
structure Writer where
  reels : List ReelWriter
  three_d : Bool
  queue : List QueueItem
  queued_full_in_memory : Int
  maximum_frames_in_memory : Int
  finish : Bool
  full_written : Nat
  fake_written : Nat
  repeat_written : Nat
  pushed_to_disk : Nat
  audio_reel : Nat
deriving DecidableEq, Repr

/-- The `Writer` as constructed: empty queue, zero counters, cursors at
the first reel.  The memory ceiling is supplied externally
(`set_encoder_threads`), so it is a parameter here. -/
def Writer.mkInit (reels : List ReelWriter) (threeD : Bool) (ceiling : Int) : Writer :=
  { reels := reels
    three_d := threeD
    queue := []
    queued_full_in_memory := 0
    maximum_frames_in_memory := ceiling
    finish := false
    full_written := 0
    fake_written := 0
    repeat_written := 0
    pushed_to_disk := 0
    audio_reel := 0 }

/-- `Writer::write (Data, Frame, Eyes)` (part_001 lines 119-151), after
the queue-full wait: resolve the reel, build a FULL item with the
payload, and enqueue it - twice (Left then Right) when the film is 3D and
`eyes == EYES_BOTH`, once otherwise - incrementing
`_queued_full_in_memory` per enqueued item. -/
def writeVideo (rate : Nat) (w : Writer) (encoded : Data) (frame : Nat) (eyes : Eyes) :
    Option Writer :=
  match video_reel w.reels rate frame with
  | none => none
  | some i =>
    match w.reels[i]? with
    | none => none
    | some r =>
      let qi : QueueItem :=
        { type := .FULL, encoded := some encoded, size := 0,
          reel := i, frame := frame - r.startFrame, eyes := eyes }
      if w.three_d && (eyes == .Both) then
        some { w with
          queue := w.queue ++ [{ qi with eyes := .Left }, { qi with eyes := .Right }]
          queued_full_in_memory := w.queued_full_in_memory + 2 }
      else
        some { w with
          queue := w.queue ++ [qi]
          queued_full_in_memory := w.queued_full_in_memory + 1 }

/-- `Writer::repeat` (part_001 lines 163-189): like `writeVideo` but the
item is a REPEAT carrying no payload, and the in-memory count is not
touched. -/
def repeatVideo (rate : Nat) (w : Writer) (frame : Nat) (eyes : Eyes) : Option Writer :=
  match video_reel w.reels rate frame with
  | none => none
  | some i =>
    match w.reels[i]? with
    | none => none
    | some r =>
      let qi : QueueItem :=
        { type := .REPEAT, encoded := none, size := 0,
          reel := i, frame := frame - r.startFrame, eyes := eyes }
      if w.three_d && (eyes == .Both) then
        some { w with queue := w.queue ++ [{ qi with eyes := .Left }, { qi with eyes := .Right }] }
      else
        some { w with queue := w.queue ++ [qi] }

/-- `Writer::fake_write` (part_001 lines 191-228): like `repeatVideo` but
the item is a FAKE carrying the byte size read back from the reel's
frame-info file (the size value `sz` is supplied by that read). -/
def fakeVideo (rate : Nat) (w : Writer) (frame : Nat) (eyes : Eyes) (sz : Nat) :
    Option Writer :=
  match video_reel w.reels rate frame with
  | none => none
  | some i =>
    match w.reels[i]? with
    | none => none
    | some r =>
      let qi : QueueItem :=
        { type := .FAKE, encoded := none, size := sz,
          reel := i, frame := frame - r.startFrame, eyes := eyes }
      if w.three_d && (eyes == .Both) then
        some { w with queue := w.queue ++ [{ qi with eyes := .Left }, { qi with eyes := .Right }] }
      else
        some { w with queue := w.queue ++ [qi] }

/-- The readiness test applied to the queue-head item `f` against its
reel (`Writer::have_sequenced_image_at_queue_head`, part_001 lines
263-280): 2D items must be the frame after the reel's last written frame;
3D items must be the Right eye of the frame whose Left was just written,
or the Left eye of the frame after a written Right. -/
def sequencedAtHead (reel : ReelWriter) (f : QueueItem) : Bool :=
  if f.eyes == .Both then
    (f.frame : Int) == reel.last_written_video_frame + 1
  else if reel.last_written_eyes == .Left
      && (f.frame : Int) == reel.last_written_video_frame
      && f.eyes == .Right then
    true
  else if reel.last_written_eyes == .Right
      && (f.frame : Int) == reel.last_written_video_frame + 1
      && f.eyes == .Left then
    true
  else
    false

/-- `Writer::have_sequenced_image_at_queue_head` (part_001 lines
251-281): false on an empty queue; otherwise sort the queue and test the
front (minimum-key) item. -/
def have_sequenced_image_at_queue_head (reels : List ReelWriter)
    (queue : List QueueItem) : Bool :=
  match sortQueue queue with
  | [] => false
  | f :: _ =>
    match reels[f.reel]? with
    | none => false
    | some reel => sequencedAtHead reel f

/-- An item eligible for disk spill: a FULL item whose payload is still
in memory (`i->type == QueueItem::FULL && i->encoded`). -/
def elig (i : QueueItem) : Bool :=
  i.type == .FULL && i.encoded.isSome

/-- Index of the last element of `l` satisfying `p`, if any.  Models the
backwards search `rbegin .. rend` of the consumer's spill loop. -/
def findLastIdx? (p : α → Bool) : List α → Option Nat
  | [] => none
  | x :: xs =>
    match findLastIdx? p xs with
    | some j => some (j + 1)
    | none => if p x then some 0 else none

/-- One iteration of the consumer's spill loop (part_001 lines 377-408):
sort the queue, search from the back for a FULL item still in memory
(`none` models the `DCPOMATIC_ASSERT (i != _queue.rend ())` failure),
write its payload out, drop the in-memory payload and decrement
`_queued_full_in_memory`. -/
def spill_one (w : Writer) : Option Writer :=
  match findLastIdx? elig (sortQueue w.queue) with
  | none => none
  | some j =>
    match (sortQueue w.queue)[j]? with
    | none => none
    | some it =>
      some { w with
        queue := (sortQueue w.queue).set j { it with encoded := none }
        queued_full_in_memory := w.queued_full_in_memory - 1
        pushed_to_disk := w.pushed_to_disk + 1 }

/-- One iteration of the consumer's write loop (part_001 lines 329-361):
if the sorted queue's head is sequence-ready, pop it, decrement the
in-memory count when it is a FULL item whose payload is present, hand it
to the reel (advancing the reel cursor) and bump the matching counter. -/
def popStep (w : Writer) : Option Writer :=
  match sortQueue w.queue with
  | [] => none
  | f :: rest =>
    match w.reels[f.reel]? with
    | none => none
    | some r =>
      if sequencedAtHead r f then
        some { w with
          queue := rest
          queued_full_in_memory :=
            w.queued_full_in_memory - (if elig f then 1 else 0)
          reels := w.reels.set f.reel (r.afterVideoWrite f.frame f.eyes)
          full_written := w.full_written + (if f.type == .FULL then 1 else 0)
          fake_written := w.fake_written + (if f.type == .FAKE then 1 else 0)
          repeat_written := w.repeat_written + (if f.type == .REPEAT then 1 else 0) }
      else
        none

/-- `Writer::write (shared_ptr<const AudioBuffers>)` (part_001 lines
234-248): off the end of the last reel the audio is ignored; otherwise it
is appended to the current audio reel, and the cursor advances once the
reel has received audio covering its declared duration. -/
def writeAudio (w : Writer) (rate : Nat) (buf : AudioBuffers) : Writer :=
  match w.reels[w.audio_reel]? with
  | none => w
  | some r =>
    if (r.writeAudioBuf buf).total_written_audio_frames ≥
        framesFloor (r.period.toT - r.period.fromT) rate then
      { w with reels := w.reels.set w.audio_reel (r.writeAudioBuf buf)
               audio_reel := w.audio_reel + 1 }
    else
      { w with reels := w.reels.set w.audio_reel (r.writeAudioBuf buf) }

/-- How one pass of the consumer thread's decision section ends
(part_001 lines 304-326): clean exit on finish with an empty queue,
exit with a warning log of the leftover items when finishing without a
sequence-ready head, otherwise carry on writing/spilling. -/
inductive ThreadDecision where
  | exitClean
  | exitLogged (leftovers : List (Nat × Eyes)) (count : Nat)
  | proceed
deriving DecidableEq, Repr

/-- The consumer thread's decision section (part_001 lines 304-326),
evaluated after the wait loop has observed `_finish`, over-ceiling or a
ready head.  The leftover log lists each remaining item's
(frame, eyes). -/
def consumerCheck (reels : List ReelWriter) (queue : List QueueItem)
    (finishFlag : Bool) : ThreadDecision :=
  let q := sortQueue queue
  if finishFlag && q.isEmpty then
    .exitClean
  else if finishFlag && (!(have_sequenced_image_at_queue_head reels queue) || q.isEmpty) then
    .exitLogged (q.map fun i => (i.frame, i.eyes)) q.length
  else
    .proceed

/-- Error kinds named by the spec for the submission API. -/
inductive WriterError where
  | InvalidFakeWrite
  | FrameOutOfRange
deriving DecidableEq, Repr

/-- Modelled from the spec: the submission-level guard around fake
writes - `submit_fake` "fails with InvalidFakeWrite" exactly when
`Writer::can_fake_write` (translated above from part_001) denies the
frame; the enqueue itself is `Writer::fake_write` (part_001 lines
191-228, `fakeVideo` above).  The guard's caller sits outside the
provided sources. -/
def submit_fake (rate : Nat) (w : Writer) (frame : Nat) (eyes : Eyes) (sz : Nat) :
    Except WriterError Writer :=
  match can_fake_write w.reels rate frame with
  | some true =>
    match fakeVideo rate w frame eyes sz with
    | some w' => .ok w'
    | none => .error .FrameOutOfRange
  | some false => .error .InvalidFakeWrite
  | none => .error .FrameOutOfRange

/-- A transition of the `Writer`'s shared state.  Producer submissions
(`write`, `repeat`, `fake_write`) carry the guard of their wait loop:
they can only enqueue while `_queued_full_in_memory` is at or below
`_maximum_frames_in_memory` (part_001 lines 124-127, 168-171, 196-199).
Consumer transitions are one iteration of the write loop or of the spill
loop (the latter guarded by its entry condition, line 377).  `setFinish`
models `terminate_thread` raising `_finish`; `audio` is the
audio-submission path. -/
inductive Step (rate : Nat) : Writer → Writer → Prop where
  | writeFull (w : Writer) (enc : Data) (frame : Nat) (eyes : Eyes) (w' : Writer)
      (hg : w.queued_full_in_memory ≤ w.maximum_frames_in_memory)
      (hs : writeVideo rate w enc frame eyes = some w') : Step rate w w'
  | writeRepeat (w : Writer) (frame : Nat) (eyes : Eyes) (w' : Writer)
      (hg : w.queued_full_in_memory ≤ w.maximum_frames_in_memory)
      (hs : repeatVideo rate w frame eyes = some w') : Step rate w w'
  | writeFake (w : Writer) (frame : Nat) (eyes : Eyes) (sz : Nat) (w' : Writer)
      (hg : w.queued_full_in_memory ≤ w.maximum_frames_in_memory)
      (hs : fakeVideo rate w frame eyes sz = some w') : Step rate w w'
  | popHead (w w' : Writer) (hs : popStep w = some w') : Step rate w w'
  | spill (w w' : Writer)
      (hg : w.maximum_frames_in_memory < w.queued_full_in_memory)
      (hs : spill_one w = some w') : Step rate w w'
  | audio (w : Writer) (buf : AudioBuffers) : Step rate w (writeAudio w rate buf)
  | setFinish (w : Writer) : Step rate w { w with finish := true }

/-- States reachable from a given initial `Writer` state by `Step`s. -/
inductive Reachable (rate : Nat) (init : Writer) : Writer → Prop where
  | refl : Reachable rate init init
  | tail {w w' : Writer} : Reachable rate init w → Step rate w w' →
      Reachable rate init w'

/-- The counting invariant of the writer: `_queued_full_in_memory` equals
the number of FULL queue items whose payload is in memory, and stays at
most two above the ceiling (a producer enqueues at most two items after
passing its wait-loop guard). -/
def WInv (w : Writer) : Prop :=
  w.queued_full_in_memory = (List.countP elig w.queue : Int) ∧
  w.queued_full_in_memory ≤ w.maximum_frames_in_memory + 2

/-- The sequence-readiness characterisation asserted by the spec, with
its "very first frame of a reel with either eye" disjunct, read against
the reel cursor: (a) 2D next frame, (b) Right eye completing a just
written Left, (c) Left eye one past a completed Right write, (d) the
reel's first frame (nothing written yet) with either single eye. -/
def sequenceReadyClaimed (reel : ReelWriter) (f : QueueItem) : Prop :=
  (f.eyes = .Both ∧ (f.frame : Int) = reel.last_written_video_frame + 1)
  ∨ (reel.last_written_eyes = .Left ∧ f.eyes = .Right ∧
      (f.frame : Int) = reel.last_written_video_frame)
  ∨ (0 ≤ reel.last_written_video_frame ∧ reel.last_written_eyes = .Right ∧
      f.eyes = .Left ∧ (f.frame : Int) = reel.last_written_video_frame + 1)
  ∨ (f.frame = 0 ∧ reel.last_written_video_frame = -1 ∧
      (f.eyes = .Left ∨ f.eyes = .Right))

/-- The amended sequence-readiness characterisation: as claimed, except
that the very first frame of a reel is ready only as its Left eye (or as
`Both` in 2D, via disjunct (a)); the Right eye of a fresh reel's first
frame is not ready until its Left has been written. -/
def sequenceReadyAmended (reel : ReelWriter) (f : QueueItem) : Prop :=
  (f.eyes = .Both ∧ (f.frame : Int) = reel.last_written_video_frame + 1)
  ∨ (reel.last_written_eyes = .Left ∧ f.eyes = .Right ∧
      (f.frame : Int) = reel.last_written_video_frame)
  ∨ (0 ≤ reel.last_written_video_frame ∧ reel.last_written_eyes = .Right ∧
      f.eyes = .Left ∧ (f.frame : Int) = reel.last_written_video_frame + 1)
  ∨ (f.frame = 0 ∧ reel.last_written_video_frame = -1 ∧ f.eyes = .Left)

/-- A single reel whose period spans frames [0, 200) at 24 fps, fresh. -/
def reelFresh : ReelWriter :=
  ReelWriter.fresh ⟨0, 800000⟩ 0

/-- The Right-eye item for the very first frame of `reelFresh`. -/
def itemR0 : QueueItem :=
  { type := .FULL, encoded := some [7], size := 0, reel := 0, frame := 0, eyes := .Right }

/-- The Left-eye item for the very first frame of `reelFresh`. -/
def itemL0 : QueueItem :=
  { type := .FULL, encoded := some [7], size := 0, reel := 0, frame := 0, eyes := .Left }

/-- A writer whose queue holds a single unready FULL item (frame 7 of a
fresh reel) while the ceiling is 0: the spill loop's entry condition
holds and the only spill candidate is the queue head. -/
def wSpillHead : Writer :=
  { Writer.mkInit [reelFresh] false 0 with
    queue := [{ type := .FULL, encoded := some [3], size := 0,
                reel := 0, frame := 7, eyes := .Both }]
    queued_full_in_memory := 1 }

/-- Two fresh reels spanning frames [0, 100) and [100, 200) at 24 fps. -/
def twoReels : List ReelWriter :=
  [ReelWriter.fresh ⟨0, 400000⟩ 0, ReelWriter.fresh ⟨400000, 800000⟩ 100]

/-- A one-reel configuration in which frames 0 to 4 have already been
really written once (`first_nonexistant_frame = 5`). -/
def rFake : ReelWriter :=
  { reelFresh with first_nonexistant_frame := 5 }

/-- A fresh one-reel writer with a given fake-write territory bound. -/
def wFake : Writer :=
  Writer.mkInit [rFake] false 4

/-- A one-reel writer whose audio cursor has advanced past its last
reel. -/
def wPastEnd : Writer :=
  { Writer.mkInit [reelFresh] false 4 with audio_reel := 1 }

/-- A writer holding two unready FULL frames in memory over a ceiling of
one: the consumer must spill, and two eligible items are present. -/
def wSpillTwo : Writer :=
  { Writer.mkInit [reelFresh] false 1 with
    queue := [{ type := .FULL, encoded := some [3], size := 0,
                reel := 0, frame := 7, eyes := .Both },
              { type := .FULL, encoded := some [4], size := 0,
                reel := 0, frame := 9, eyes := .Both }]
    queued_full_in_memory := 2 }

/-- A queue item whose frame can never become sequence-ready on
`reelFresh` (frame 5 while nothing has been written). -/
def itemGap : QueueItem :=
  { type := .FULL, encoded := some [1], size := 0, reel := 0, frame := 5, eyes := .Both }

/-- The state of a fresh one-reel 3D writer with ceiling 1 after one
full `Both` submission of frame 0: two FULL items in memory, over the
ceiling. -/
def wAfterWrite : Writer :=
  { Writer.mkInit [reelFresh] true 1 with
    queue := [{ type := .FULL, encoded := some [5], size := 0,
                reel := 0, frame := 0, eyes := .Left },
              { type := .FULL, encoded := some [5], size := 0,
                reel := 0, frame := 0, eyes := .Right }]
    queued_full_in_memory := 2 }

/-- A fresh one-reel 3D writer. -/
def w3d : Writer :=
  Writer.mkInit [reelFresh] true 4

section Helpers

/-- Counting is invariant under sorted insertion. -/
theorem countP_insertSorted (p : QueueItem → Bool) (x : QueueItem) (l : List QueueItem) :
    List.countP p (insertSorted x l) =
      List.countP p l + (if p x then 1 else 0) := by
  induction l with
  | nil => simp [insertSorted, List.countP_cons]
  | cons y ys ih =>
    cases h : qlt y x with
    | true =>
      simp only [insertSorted, h, if_true, List.countP_cons, ih]
      omega
    | false =>
      simp only [insertSorted, h, Bool.false_eq_true, if_false, List.countP_cons]

/-- Counting is invariant under `sortQueue`. -/
theorem countP_sortQueue (p : QueueItem → Bool) (l : List QueueItem) :
    List.countP p (sortQueue l) = List.countP p l := by
  induction l with
  | nil => rfl
  | cons x xs ih =>
    show List.countP p (insertSorted x (sortQueue xs)) = _
    rw [countP_insertSorted, ih, List.countP_cons]

/-- Sorted insertion adds one to the length. -/
theorem length_insertSorted (x : QueueItem) (l : List QueueItem) :
    (insertSorted x l).length = l.length + 1 := by
  induction l with
  | nil => rfl
  | cons y ys ih =>
    cases h : qlt y x with
    | true => simp [insertSorted, h, ih]
    | false => simp [insertSorted, h]

/-- `sortQueue` preserves length. -/
theorem length_sortQueue (l : List QueueItem) :
    (sortQueue l).length = l.length := by
  induction l with
  | nil => rfl
  | cons x xs ih =>
    show (insertSorted x (sortQueue xs)).length = _
    rw [length_insertSorted, ih, List.length_cons]

/-- If the backwards search fails, no element satisfies the predicate. -/
theorem findLastIdx?_eq_none {p : α → Bool} {l : List α}
    (h : findLastIdx? p l = none) : ∀ (k : Nat) (y : α), l[k]? = some y → p y = false := by
  induction l with
  | nil => intro k y hy; simp at hy
  | cons x xs ih =>
    intro k y hy
    rcases hfx : findLastIdx? p xs with _ | j
    · simp only [findLastIdx?, hfx] at h
      cases k with
      | zero =>
        simp only [List.getElem?_cons_zero, Option.some.injEq] at hy
        subst hy
        cases hp : p x with
        | true => simp [hp] at h
        | false => rfl
      | succ k' =>
        simp only [List.getElem?_cons_succ] at hy
        exact ih hfx k' y hy
    · simp [findLastIdx?, hfx] at h

/-- What the backwards search returns: an index holding an element that
satisfies the predicate, with nothing satisfying it later in the list. -/
theorem findLastIdx?_spec {p : α → Bool} {l : List α} {j : Nat}
    (h : findLastIdx? p l = some j) :
    ∃ x, l[j]? = some x ∧ p x = true ∧
      ∀ (k : Nat) (y : α), j < k → l[k]? = some y → p y = false := by
  induction l generalizing j with
  | nil => simp [findLastIdx?] at h
  | cons x xs ih =>
    rcases hfx : findLastIdx? p xs with _ | j'
    · simp only [findLastIdx?, hfx] at h
      cases hp : p x with
      | true =>
        rw [hp] at h
        simp only [if_true, Option.some.injEq] at h
        subst h
        refine ⟨x, by simp, hp, ?_⟩
        intro k y hk hy
        cases k with
        | zero => omega
        | succ k' =>
          simp only [List.getElem?_cons_succ] at hy
          exact findLastIdx?_eq_none hfx k' y hy
      | false => rw [hp] at h; simp at h
    · simp only [findLastIdx?, hfx, Option.some.injEq] at h
      subst h
      obtain ⟨z, hz, hpz, hafter⟩ := ih hfx
      refine ⟨z, by simpa using hz, hpz, ?_⟩
      intro k y hk hy
      cases k with
      | zero => omega
      | succ k' =>
        simp only [List.getElem?_cons_succ] at hy
        exact hafter k' y (by omega) hy

/-- If some element satisfies the predicate, the backwards search
succeeds. -/
theorem findLastIdx?_isSome {p : α → Bool} {l : List α}
    (h : 1 ≤ List.countP p l) : (findLastIdx? p l).isSome = true := by
  rcases hf : findLastIdx? p l with _ | j
  · have hz : List.countP p l = 0 := by
      rw [List.countP_eq_zero]
      intro a ha
      obtain ⟨k, hk, hget⟩ := List.getElem_of_mem ha
      have := findLastIdx?_eq_none hf k a (by rw [List.getElem?_eq_getElem hk, hget])
      simpa using this
    omega
  · rfl

/-- With at least two elements satisfying the predicate, the backwards
search lands strictly after the head. -/
theorem findLastIdx?_pos {p : α → Bool} {l : List α} {j : Nat}
    (h2 : 2 ≤ List.countP p l) (hj : findLastIdx? p l = some j) : 0 < j := by
  rcases Nat.eq_zero_or_pos j with hz | hp
  · subst hz
    obtain ⟨x, hx, hpx, hafter⟩ := findLastIdx?_spec hj
    match l with
    | a :: xs =>
      simp only [List.getElem?_cons_zero, Option.some.injEq] at hx
      subst hx
      have hxs : List.countP p xs = 0 := by
        rw [List.countP_eq_zero]
        intro b hb
        obtain ⟨k, hk, hget⟩ := List.getElem_of_mem hb
        have := hafter (k + 1) b (by omega)
          (by simp only [List.getElem?_cons_succ]; rw [List.getElem?_eq_getElem hk, hget])
        simpa using this
      rw [List.countP_cons, hxs, hpx] at h2
      norm_num at h2
  · exact hp

/-- Replacing the element at an index changes the count by the
difference of the two elements' predicate values. -/
theorem countP_set {p : α → Bool} {l : List α} {j : Nat} {a : α} (b : α)
    (h : l[j]? = some a) :
    List.countP p (l.set j b) + (if p a then 1 else 0) =
      List.countP p l + (if p b then 1 else 0) := by
  induction l generalizing j with
  | nil => simp at h
  | cons x xs ih =>
    match j with
    | 0 =>
      simp only [List.getElem?_cons_zero, Option.some.injEq] at h
      subst h
      simp only [List.set_cons_zero, List.countP_cons]
      omega
    | j' + 1 =>
      simp only [List.getElem?_cons_succ] at h
      simp only [List.set_cons_succ, List.countP_cons]
      have := ih h
      omega

/-- The linear scan finds exactly the first containing reel. -/
theorem scanReels_eq_some {t : Nat} {reels : List ReelWriter} {i : Nat} {r : ReelWriter}
    (hi : reels[i]? = some r) (hc : r.period.containsT t = true)
    (hb : ∀ (k : Nat) (y : ReelWriter), k < i → reels[k]? = some y → y.period.containsT t = false) :
    scanReels t reels = some i := by
  induction reels generalizing i with
  | nil => simp at hi
  | cons r0 rs ih =>
    match i with
    | 0 =>
      simp only [List.getElem?_cons_zero, Option.some.injEq] at hi
      subst hi
      simp [scanReels, hc]
    | i' + 1 =>
      simp only [List.getElem?_cons_succ] at hi
      have h0 : r0.period.containsT t = false :=
        hb 0 r0 (by omega) (by simp)
      have := ih hi (fun k y hk hy =>
        hb (k + 1) y (by omega) (by simpa using hy))
      simp [scanReels, h0, this]

/-- If no reel contains the time, the linear scan fails (and the
`DCPOMATIC_ASSERT` in `video_reel` would abort). -/
theorem scanReels_eq_none {t : Nat} {reels : List ReelWriter}
    (h : ∀ (k : Nat) (y : ReelWriter), reels[k]? = some y → y.period.containsT t = false) :
    scanReels t reels = none := by
  induction reels with
  | nil => rfl
  | cons r0 rs ih =>
    have h0 : r0.period.containsT t = false := h 0 r0 (by simp)
    have := ih (fun k y hy => h (k + 1) y (by simpa using hy))
    simp [scanReels, h0, this]

end Helpers

/-- C5: for ordered, non-overlapping reel periods, a submitted global
frame resolves by linear scan to the unique reel whose period contains
its timestamp, with reel-local frame equal to the global frame minus the
reel's start frame; when no reel contains the timestamp the scan fails
(the `DCPOMATIC_ASSERT` aborts). -/
theorem video_reel_resolution (reels : List ReelWriter) (rate frame : Nat)
    (hord : List.Pairwise (fun a b => a.period.toT ≤ b.period.fromT) reels) :
    (∀ (i : Nat) (r : ReelWriter), reels[i]? = some r →
      r.period.containsT (fromFrames frame rate) = true →
      video_reel reels rate frame = some i ∧
      reel_local reels rate frame = some (frame - r.startFrame) ∧
      ∀ (j : Nat) (rj : ReelWriter), reels[j]? = some rj →
        rj.period.containsT (fromFrames frame rate) = true → j = i)
    ∧ ((∀ (k : Nat) (rk : ReelWriter), reels[k]? = some rk →
        rk.period.containsT (fromFrames frame rate) = false) →
      video_reel reels rate frame = none) := by
  have key : ∀ (a b : Nat) (ra rb : ReelWriter), a < b →
      reels[a]? = some ra → reels[b]? = some rb →
      ra.period.containsT (fromFrames frame rate) = true →
      rb.period.containsT (fromFrames frame rate) = false := by
    intro a b ra rb hab ha hb hca
    obtain ⟨hla, hga⟩ := List.getElem?_eq_some.mp ha
    obtain ⟨hlb, hgb⟩ := List.getElem?_eq_some.mp hb
    have hR := List.pairwise_iff_getElem.mp hord a b hla hlb hab
    rw [hga, hgb] at hR
    unfold DCPTimePeriod.containsT at hca ⊢
    simp only [decide_eq_true_eq] at hca
    simp only [decide_eq_false_iff_not]
    omega
  constructor
  · intro i r hi hc
    have hb : ∀ (k : Nat) (y : ReelWriter), k < i → reels[k]? = some y →
        y.period.containsT (fromFrames frame rate) = false := by
      intro k y hk hy
      cases hcy : y.period.containsT (fromFrames frame rate) with
      | false => rfl
      | true => exact absurd (key k i y r hk hy hi hcy) (by simp [hc])
    have hscan : video_reel reels rate frame = some i :=
      scanReels_eq_some hi hc hb
    refine ⟨hscan, ?_, ?_⟩
    · unfold reel_local
      rw [hscan]
      simp [hi]
    · intro j rj hj hcj
      rcases Nat.lt_trichotomy j i with hlt | heq | hgt
      · exact absurd (key j i rj r hlt hj hi hcj) (by simp [hc])
      · exact heq
      · exact absurd (key i j r rj hgt hi hj hc) (by simp [hcj])
  · intro h
    exact scanReels_eq_none fun k y hy => h k y hy

/-- Witness for C5, the spec's reel-boundary scenario: with reels
covering frames [0,100) and [100,200) at 24 fps, frame 99 resolves to
reel 0 with local index 99 and frame 100 to reel 1 with local index 0. -/
theorem video_reel_resolution_witness :
    video_reel twoReels 24 99 = some 0 ∧ reel_local twoReels 24 99 = some 99 ∧
    video_reel twoReels 24 100 = some 1 ∧ reel_local twoReels 24 100 = some 0 := by
  have h99 := ((video_reel_resolution twoReels 24 99 (by decide)).1 0
    (ReelWriter.fresh ⟨0, 400000⟩ 0) (by decide) (by decide))
  have h100 := ((video_reel_resolution twoReels 24 100 (by decide)).1 1
    (ReelWriter.fresh ⟨400000, 800000⟩ 100) (by decide) (by decide))
  exact ⟨h99.1, h99.2.1, h100.1, h100.2.1⟩

/-- C2: a fake-write submission is refused with `InvalidFakeWrite` when
the reel-local frame is 0 or at/past the reel's
`first_nonexistant_frame`, and succeeds when the reel-local frame lies
strictly between the two. -/
theorem submit_fake_guard (rate : Nat) (w : Writer) (frame : Nat) (eyes : Eyes)
    (sz : Nat) (i : Nat) (r : ReelWriter)
    (hv : video_reel w.reels rate frame = some i)
    (hr : w.reels[i]? = some r) :
    (frame - r.startFrame = 0 →
      submit_fake rate w frame eyes sz = .error .InvalidFakeWrite)
    ∧ (r.first_nonexistant_frame ≤ frame - r.startFrame →
      submit_fake rate w frame eyes sz = .error .InvalidFakeWrite)
    ∧ (0 < frame - r.startFrame → frame - r.startFrame < r.first_nonexistant_frame →
      ∃ w', submit_fake rate w frame eyes sz = .ok w') := by
  have hcf : can_fake_write w.reels rate frame =
      some ((frame - r.startFrame != 0) &&
        decide (frame - r.startFrame < r.first_nonexistant_frame)) := by
    unfold can_fake_write
    rw [hv]
    simp [hr]
  refine ⟨?_, ?_, ?_⟩
  · intro h0
    unfold submit_fake
    rw [hcf, h0]
    simp
  · intro hpast
    unfold submit_fake
    rw [hcf]
    have : decide (frame - r.startFrame < r.first_nonexistant_frame) = false := by
      simp only [decide_eq_false_iff_not]
      omega
    rw [this]
    simp
  · intro hpos hlt
    have h1 : (frame - r.startFrame != 0) = true := by
      simp only [bne_iff_ne, ne_eq]
      omega
    have h2 : decide (frame - r.startFrame < r.first_nonexistant_frame) = true := by
      simpa using hlt
    have hcw : can_fake_write w.reels rate frame = some true := by
      rw [hcf, h1, h2]
      rfl
    obtain ⟨w', hw'⟩ : ∃ w', fakeVideo rate w frame eyes sz = some w' := by
      unfold fakeVideo
      rw [hv]
      simp only [hr]
      split
      · exact ⟨_, rfl⟩
      · exact ⟨_, rfl⟩
    refine ⟨w', ?_⟩
    unfold submit_fake
    simp [hcw, hw']

/-- Witness for C2 on a reel with frames 0 to 4 already written: faking
frame 0 and frame 7 is refused, faking frame 3 succeeds. -/
theorem submit_fake_guard_witness :
    submit_fake 24 wFake 0 .Both 11 = .error .InvalidFakeWrite
    ∧ submit_fake 24 wFake 7 .Both 11 = .error .InvalidFakeWrite
    ∧ ∃ w', submit_fake 24 wFake 3 .Both 11 = .ok w' := by
  refine ⟨?_, ?_, ?_⟩
  · exact (submit_fake_guard 24 wFake 0 .Both 11 0 rFake (by decide) (by decide)).1
      (by decide)
  · exact (submit_fake_guard 24 wFake 7 .Both 11 0 rFake (by decide) (by decide)).2.1
      (by decide)
  · exact (submit_fake_guard 24 wFake 3 .Both 11 0 rFake (by decide) (by decide)).2.2
      (by decide) (by decide)

/-- C6: a full submission with `eyes = Both` into a 3D package enqueues
exactly two FULL items for that frame, Left first then Right, both
holding the same payload, incrementing the in-memory count by two; in a
2D package, or with a single eye, exactly one item is enqueued and the
count rises by one. -/
theorem write_full_enqueue (rate : Nat) (w : Writer) (enc : Data) (frame : Nat)
    (eyes : Eyes) (i : Nat) (r : ReelWriter)
    (hv : video_reel w.reels rate frame = some i)
    (hr : w.reels[i]? = some r) :
    (w.three_d = true → eyes = .Both →
      writeVideo rate w enc frame eyes = some { w with
        queue := w.queue ++
          [{ type := .FULL, encoded := some enc, size := 0, reel := i,
             frame := frame - r.startFrame, eyes := .Left },
           { type := .FULL, encoded := some enc, size := 0, reel := i,
             frame := frame - r.startFrame, eyes := .Right }]
        queued_full_in_memory := w.queued_full_in_memory + 2 })
    ∧ (w.three_d = false ∨ eyes ≠ .Both →
      writeVideo rate w enc frame eyes = some { w with
        queue := w.queue ++
          [{ type := .FULL, encoded := some enc, size := 0, reel := i,
             frame := frame - r.startFrame, eyes := eyes }]
        queued_full_in_memory := w.queued_full_in_memory + 1 }) := by
  constructor
  · intro h3 hb
    unfold writeVideo
    rw [hv]
    simp [hr, h3, hb]
  · intro hcase
    unfold writeVideo
    rw [hv]
    have hcond : (w.three_d && (eyes == .Both)) = false := by
      rcases hcase with h | h
      · simp [h]
      · simp [beq_eq_false_iff_ne.mpr h]
    simp [hr, hcond]

/-- Witness for C6: on a fresh one-reel 3D writer, submitting frame 0
with `Both` enqueues the Left and then the Right item with the same
payload and raises the count to 2. -/
theorem write_full_enqueue_witness :
    writeVideo 24 w3d [9, 9] 0 .Both = some { w3d with
      queue := [{ type := .FULL, encoded := some [9, 9], size := 0, reel := 0,
                  frame := 0, eyes := .Left },
                { type := .FULL, encoded := some [9, 9], size := 0, reel := 0,
                  frame := 0, eyes := .Right }]
      queued_full_in_memory := 2 } := by
  have h := (write_full_enqueue 24 w3d [9, 9] 0 .Both 0 reelFresh (by decide)
    (by decide)).1 (by decide) rfl
  simpa using h

/-- C10: an audio buffer submitted after the audio cursor has advanced
past the last reel is silently ignored: the writer state is returned
unchanged and no error arises. -/
theorem write_audio_past_end (w : Writer) (rate : Nat) (buf : AudioBuffers)
    (h : w.reels.length ≤ w.audio_reel) :
    writeAudio w rate buf = w := by
  unfold writeAudio
  rw [List.getElem?_eq_none h]

/-- Witness for C10: a one-reel writer whose audio cursor sits at index
1 ignores a 100-frame audio buffer. -/
theorem write_audio_past_end_witness :
    writeAudio wPastEnd 24 ⟨100⟩ = wPastEnd :=
  write_audio_past_end wPastEnd 24 ⟨100⟩ (by decide)

/-- C8: `operator<` on queue items is the lexicographic order on the key
(reel, frame, eye) with eyes ranked Left, Right, Both; `operator==` holds
iff the two keys coincide, regardless of payload. -/
theorem queue_item_order (a b : QueueItem) :
    (qlt a b = true ↔ Prod.Lex (· < ·) (Prod.Lex (· < ·) (· < ·))
      (a.reel, a.frame, a.eyes.rank) (b.reel, b.frame, b.eyes.rank))
    ∧ (qeq a b = true ↔ (a.reel = b.reel ∧ a.frame = b.frame ∧ a.eyes = b.eyes)) := by
  constructor
  · unfold qlt
    rw [Prod.lex_def, Prod.lex_def]
    by_cases hreel : a.reel = b.reel
    · by_cases hframe : a.frame = b.frame
      · simp [hreel, hframe]
      · simp [hreel, hframe]
    · simp [hreel]
  · unfold qeq
    simp only [Bool.and_eq_true, beq_iff_eq]
    tauto

/-- C7: when the consumer observes the finishing flag while the queue is
nonempty with no sequence-ready head, its decision section exits the
thread (rather than looping), logging each leftover item's (frame, eyes)
and the leftover count; the decision is a plain return, not a stored
error. -/
theorem finish_unsequenced_stops (reels : List ReelWriter) (queue : List QueueItem)
    (h1 : queue ≠ [])
    (h2 : have_sequenced_image_at_queue_head reels queue = false) :
    consumerCheck reels queue true =
      .exitLogged ((sortQueue queue).map fun i => (i.frame, i.eyes))
        (sortQueue queue).length := by
  have hne : (sortQueue queue).isEmpty = false := by
    cases hq : sortQueue queue with
    | nil =>
      exfalso
      have hl := length_sortQueue queue
      rw [hq] at hl
      exact h1 (List.length_eq_zero.mp hl.symm)
    | cons a l => rfl
  unfold consumerCheck
  simp [hne, h2]

/-- Witness for C7: finishing with only an unreachable frame 5 queued on
a fresh reel exits and logs that single leftover. -/
theorem finish_unsequenced_stops_witness :
    consumerCheck [reelFresh] [itemGap] true = .exitLogged [(5, .Both)] 1 := by
  have h := finish_unsequenced_stops [reelFresh] [itemGap] (by decide) (by decide)
  simpa using h

/-- Counterexample to C1: on a fresh reel (nothing written yet) the
claimed characterisation declares the Right-eye item of frame 0 ready
("the very first frame of its reel with either eye"), but the source
predicate returns false for it: only the Left eye (or `Both` in 2D) of a
reel's first frame is sequence-ready. -/
theorem sequencing_first_frame_counterexample :
    sequenceReadyClaimed reelFresh itemR0 ∧
    have_sequenced_image_at_queue_head [reelFresh] [itemR0] = false := by
  constructor
  · exact Or.inr (Or.inr (Or.inr ⟨rfl, rfl, Or.inr rfl⟩))
  · decide

/-- C1 (amended): the minimum-key queue item is ready iff it is `Both`
with frame equal to the reel's last written frame + 1, or the Right eye
of the frame whose Left was just written, or the Left eye of the frame
one past a completed Right write, or the Left eye of the very first
frame of its reel; the Right eye of a fresh reel's first frame is not
ready.  The hypothesis ties the fresh-reel cursor to its sentinel value
(`last_written_eyes = Right` when nothing has been written). -/
theorem sequencing_readiness_amended (reels : List ReelWriter)
    (queue rest : List QueueItem) (f : QueueItem) (r : ReelWriter)
    (hq : sortQueue queue = f :: rest)
    (hr : reels[f.reel]? = some r)
    (hfresh : r.last_written_video_frame = -1 → r.last_written_eyes = .Right) :
    have_sequenced_image_at_queue_head reels queue = true ↔
      sequenceReadyAmended r f := by
  unfold have_sequenced_image_at_queue_head
  rw [hq]
  simp only [hr]
  cases hfe : f.eyes <;> cases hle : r.last_written_eyes <;>
    rw [hle] at hfresh <;>
    simp [sequencedAtHead, sequenceReadyAmended, hfe, hle] at hfresh ⊢ <;>
    omega

/-- Witness for C1 (amended): the Left eye of the first frame of a fresh
reel at the queue head is ready, and the amended characterisation agrees. -/
theorem sequencing_readiness_amended_witness :
    (have_sequenced_image_at_queue_head [reelFresh] [itemL0] = true ↔
      sequenceReadyAmended reelFresh itemL0) ∧
    have_sequenced_image_at_queue_head [reelFresh] [itemL0] = true := by
  refine ⟨sequencing_readiness_amended [reelFresh] [itemL0] [] itemL0 reelFresh
    (by decide) (by decide) (fun _ => rfl), by decide⟩

/-- Counterexample to C3: with a ceiling of 0 and a single unready FULL
frame in memory, the consumer's spill loop runs (count exceeds ceiling)
and its backwards search selects index 0 of the sorted queue - the very
item at the queue head - and spills it; the search does not exclude the
head. -/
theorem spill_head_counterexample :
    wSpillHead.maximum_frames_in_memory < wSpillHead.queued_full_in_memory
    ∧ findLastIdx? elig (sortQueue wSpillHead.queue) = some 0
    ∧ spill_one wSpillHead = some { wSpillHead with
        queue := [{ type := .FULL, encoded := none, size := 0,
                    reel := 0, frame := 7, eyes := .Both }]
        queued_full_in_memory := 0
        pushed_to_disk := 1 } := by
  refine ⟨by decide, by decide, by decide⟩

/-- C3 (amended): the spill loop selects the item farthest from the head
of the sorted queue, over the whole queue, whose kind is FULL with its
payload still in memory; releasing it drops the payload in place and
decrements the in-memory count by one.  Provided the count invariant
holds and the ceiling is at least 1, at least two such items are present
whenever the loop runs, so the selected item is never the queue head;
with a ceiling of 0 the single candidate can be the head itself. -/
theorem spill_selection_amended (w : Writer)
    (hinv : w.queued_full_in_memory = (List.countP elig w.queue : Int))
    (hceil : 1 ≤ w.maximum_frames_in_memory)
    (hspill : w.maximum_frames_in_memory < w.queued_full_in_memory) :
    ∃ (j : Nat) (it : QueueItem),
      findLastIdx? elig (sortQueue w.queue) = some j
      ∧ 0 < j
      ∧ (sortQueue w.queue)[j]? = some it
      ∧ elig it = true
      ∧ (∀ (k : Nat) (it' : QueueItem), j < k →
          (sortQueue w.queue)[k]? = some it' → elig it' = false)
      ∧ spill_one w = some { w with
          queue := (sortQueue w.queue).set j { it with encoded := none }
          queued_full_in_memory := w.queued_full_in_memory - 1
          pushed_to_disk := w.pushed_to_disk + 1 } := by
  have hcount : 2 ≤ List.countP elig (sortQueue w.queue) := by
    rw [countP_sortQueue]
    omega
  obtain ⟨j, hj⟩ := Option.isSome_iff_exists.mp
    (findLastIdx?_isSome (by omega : 1 ≤ List.countP elig (sortQueue w.queue)))
  obtain ⟨it, hit, hpe, hafter⟩ := findLastIdx?_spec hj
  refine ⟨j, it, hj, findLastIdx?_pos hcount hj, hit, hpe, hafter, ?_⟩
  unfold spill_one
  simp only [hj, hit]

/-- Witness for C3 (amended): two unready in-memory FULL frames over a
ceiling of one - the consumer spills, and the selected item is not the
head. -/
theorem spill_selection_amended_witness :
    ∃ (j : Nat) (it : QueueItem),
      findLastIdx? elig (sortQueue wSpillTwo.queue) = some j
      ∧ 0 < j
      ∧ (sortQueue wSpillTwo.queue)[j]? = some it
      ∧ elig it = true
      ∧ (∀ (k : Nat) (it' : QueueItem), j < k →
          (sortQueue wSpillTwo.queue)[k]? = some it' → elig it' = false)
      ∧ spill_one wSpillTwo = some { wSpillTwo with
          queue := (sortQueue wSpillTwo.queue).set j { it with encoded := none }
          queued_full_in_memory := wSpillTwo.queued_full_in_memory - 1
          pushed_to_disk := wSpillTwo.pushed_to_disk + 1 } :=
  spill_selection_amended wSpillTwo (by decide) (by decide) (by decide)

/-- A popped head never increases the in-memory count. -/
theorem popStep_count {w w' : Writer} (h : popStep w = some w') :
    w'.queued_full_in_memory ≤ w.queued_full_in_memory := by
  unfold popStep at h
  rcases hq : sortQueue w.queue with _ | ⟨f, rest⟩
  · simp only [hq] at h
    exact Option.noConfusion h
  · simp only [hq] at h
    rcases hrr : w.reels[f.reel]? with _ | r
    · simp only [hrr] at h
      exact Option.noConfusion h
    · simp only [hrr] at h
      by_cases hready : sequencedAtHead r f = true
      · simp only [hready, if_true, Option.some.injEq] at h
        subst h
        cases hef : elig f <;> simp [hef]
      · simp [hready] at h

/-- A spill decrements the in-memory count by exactly one. -/
theorem spill_one_count {w w' : Writer} (h : spill_one w = some w') :
    w'.queued_full_in_memory = w.queued_full_in_memory - 1 := by
  unfold spill_one at h
  rcases hfl : findLastIdx? elig (sortQueue w.queue) with _ | j
  · simp only [hfl] at h
    exact Option.noConfusion h
  · simp only [hfl] at h
    rcases hgj : (sortQueue w.queue)[j]? with _ | it
    · simp only [hgj] at h
      exact Option.noConfusion h
    · simp only [hgj, Option.some.injEq] at h
      subst h
      rfl

/-- Audio submission never touches the in-memory count. -/
theorem writeAudio_count (w : Writer) (rate : Nat) (buf : AudioBuffers) :
    (writeAudio w rate buf).queued_full_in_memory = w.queued_full_in_memory := by
  unfold writeAudio
  rcases hra : w.reels[w.audio_reel]? with _ | r
  · simp only [hra]
  · simp only [hra]
    split <;> rfl

/-- Every step preserves the counting invariant and the ceiling. -/
theorem step_preserves {rate : Nat} {w w' : Writer} (hs : Step rate w w')
    (h : WInv w) :
    WInv w' ∧ w'.maximum_frames_in_memory = w.maximum_frames_in_memory := by
  obtain ⟨h1, h2⟩ := h
  cases hs with
  | writeFull enc frame eyes w' hg hsv =>
    unfold writeVideo at hsv
    rcases hv : video_reel w.reels rate frame with _ | i
    · simp only [hv] at hsv
      exact Option.noConfusion hsv
    rcases hri : w.reels[i]? with _ | r
    · simp only [hv, hri] at hsv
      exact Option.noConfusion hsv
    simp only [hv, hri] at hsv
    by_cases h3 : (w.three_d && (eyes == Eyes.Both)) = true
    · simp only [h3, if_true, Option.some.injEq] at hsv
      subst hsv
      refine ⟨⟨?_, ?_⟩, rfl⟩
      · show w.queued_full_in_memory + 2 = _
        simp [List.countP_append, List.countP_cons, elig]
        omega
      · show w.queued_full_in_memory + 2 ≤ _
        dsimp only
        omega
    · simp only [h3, Bool.false_eq_true, if_false, Option.some.injEq] at hsv
      subst hsv
      refine ⟨⟨?_, ?_⟩, rfl⟩
      · show w.queued_full_in_memory + 1 = _
        simp [List.countP_append, List.countP_cons, elig]
        omega
      · show w.queued_full_in_memory + 1 ≤ _
        dsimp only
        omega
  | writeRepeat frame eyes w' hg hsv =>
    unfold repeatVideo at hsv
    rcases hv : video_reel w.reels rate frame with _ | i
    · simp only [hv] at hsv
      exact Option.noConfusion hsv
    rcases hri : w.reels[i]? with _ | r
    · simp only [hv, hri] at hsv
      exact Option.noConfusion hsv
    simp only [hv, hri] at hsv
    by_cases h3 : (w.three_d && (eyes == Eyes.Both)) = true
    · simp only [h3, if_true, Option.some.injEq] at hsv
      subst hsv
      refine ⟨⟨?_, h2⟩, rfl⟩
      simp [List.countP_append, List.countP_cons, elig]
      omega
    · simp only [h3, Bool.false_eq_true, if_false, Option.some.injEq] at hsv
      subst hsv
      refine ⟨⟨?_, h2⟩, rfl⟩
      simp [List.countP_append, List.countP_cons, elig]
      omega
  | writeFake frame eyes sz w' hg hsv =>
    unfold fakeVideo at hsv
    rcases hv : video_reel w.reels rate frame with _ | i
    · simp only [hv] at hsv
      exact Option.noConfusion hsv
    rcases hri : w.reels[i]? with _ | r
    · simp only [hv, hri] at hsv
      exact Option.noConfusion hsv
    simp only [hv, hri] at hsv
    by_cases h3 : (w.three_d && (eyes == Eyes.Both)) = true
    · simp only [h3, if_true, Option.some.injEq] at hsv
      subst hsv
      refine ⟨⟨?_, h2⟩, rfl⟩
      simp [List.countP_append, List.countP_cons, elig]
      omega
    · simp only [h3, Bool.false_eq_true, if_false, Option.some.injEq] at hsv
      subst hsv
      refine ⟨⟨?_, h2⟩, rfl⟩
      simp [List.countP_append, List.countP_cons, elig]
      omega
  | popHead w' hsv =>
    have hle := popStep_count hsv
    unfold popStep at hsv
    rcases hq : sortQueue w.queue with _ | ⟨f, rest⟩
    · simp only [hq] at hsv
      exact Option.noConfusion hsv
    rcases hrr : w.reels[f.reel]? with _ | r
    · simp only [hq, hrr] at hsv
      exact Option.noConfusion hsv
    simp only [hq, hrr] at hsv
    by_cases hready : sequencedAtHead r f = true
    · simp only [hready, if_true, Option.some.injEq] at hsv
      subst hsv
      have hcp : List.countP elig (f :: rest) = List.countP elig w.queue := by
        rw [← hq, countP_sortQueue]
      rw [List.countP_cons] at hcp
      refine ⟨⟨?_, ?_⟩, rfl⟩
      · show w.queued_full_in_memory - _ = _
        cases hef : elig f <;> simp [hef] at hcp ⊢ <;> omega
      · show w.queued_full_in_memory - _ ≤ _
        cases hef : elig f <;> simp [hef] <;> omega
    · simp [hready] at hsv
  | spill w' hg hsv =>
    unfold spill_one at hsv
    rcases hfl : findLastIdx? elig (sortQueue w.queue) with _ | j
    · simp only [hfl] at hsv
      exact Option.noConfusion hsv
    rcases hgj : (sortQueue w.queue)[j]? with _ | it
    · simp only [hfl, hgj] at hsv
      exact Option.noConfusion hsv
    simp only [hfl, hgj, Option.some.injEq] at hsv
    subst hsv
    obtain ⟨x, hx, hpx, -⟩ := findLastIdx?_spec hfl
    rw [hgj, Option.some.injEq] at hx
    subst hx
    have hset := countP_set (p := elig) { it with encoded := none } hgj
    rw [hpx] at hset
    have hnm : elig { it with encoded := none } = false := by
      simp [elig]
    rw [hnm] at hset
    have hcq : List.countP elig (sortQueue w.queue) = List.countP elig w.queue :=
      countP_sortQueue elig w.queue
    refine ⟨⟨?_, ?_⟩, rfl⟩
    · show w.queued_full_in_memory - 1 = _
      simp only [if_true, Bool.false_eq_true, if_false] at hset
      dsimp only
      omega
    · show w.queued_full_in_memory - 1 ≤ _
      dsimp only
      omega
  | audio buf =>
    have hq : (writeAudio w rate buf).queue = w.queue := by
      unfold writeAudio
      rcases hra : w.reels[w.audio_reel]? with _ | r
      · simp only [hra]
      · simp only [hra]
        split <;> rfl
    have hm : (writeAudio w rate buf).maximum_frames_in_memory =
        w.maximum_frames_in_memory := by
      unfold writeAudio
      rcases hra : w.reels[w.audio_reel]? with _ | r
      · simp only [hra]
      · simp only [hra]
        split <;> rfl
    have hc := writeAudio_count w rate buf
    exact ⟨⟨by rw [hc, hq, h1], by rw [hc, hm]; exact h2⟩, hm⟩
  | setFinish =>
    exact ⟨⟨h1, h2⟩, rfl⟩

/-- Reachable states satisfy the counting invariant and keep the initial
ceiling. -/
theorem reachable_props (rate : Nat) (reels0 : List ReelWriter) (threeD : Bool)
    (ceiling : Int) (w : Writer) (hc : 0 ≤ ceiling)
    (h : Reachable rate (Writer.mkInit reels0 threeD ceiling) w) :
    WInv w ∧ w.maximum_frames_in_memory = ceiling := by
  induction h with
  | refl =>
    refine ⟨⟨rfl, ?_⟩, rfl⟩
    show (0 : Int) ≤ ceiling + 2
    omega
  | tail hr hs ih =>
    obtain ⟨hi, hm⟩ := ih
    obtain ⟨hi', hm'⟩ := step_preserves hs hi
    exact ⟨hi', hm'.trans hm⟩

/-- No step that increases the in-memory count fires from a state above
the ceiling: the producers' wait-loop guard. -/
theorem step_count_le {rate : Nat} {w w' : Writer} (hs : Step rate w w')
    (hlt : w.queued_full_in_memory < w'.queued_full_in_memory) :
    w.queued_full_in_memory ≤ w.maximum_frames_in_memory := by
  cases hs with
  | writeFull _ _ _ _ hg _ => exact hg
  | writeRepeat _ _ _ hg _ => exact hg
  | writeFake _ _ _ _ hg _ => exact hg
  | popHead _ hsv => exact absurd hlt (by have := popStep_count hsv; omega)
  | spill _ hg hsv => exact absurd hlt (by have := spill_one_count hsv; omega)
  | audio buf => exact absurd hlt (by have := writeAudio_count w rate buf; omega)
  | setFinish => simp at hlt

/-- C4: over any sequence of submissions and consumer steps from a fresh
writer, the in-memory full count stays at most two above the ceiling,
and any step that raises the count (a producer enqueue) can only fire
from a state at or below the ceiling - producers block, and enqueue only
after the consumer has freed capacity. -/
theorem memory_ceiling_bound (rate : Nat) (reels0 : List ReelWriter) (threeD : Bool)
    (ceiling : Int) (w : Writer) (hc : 0 ≤ ceiling)
    (h : Reachable rate (Writer.mkInit reels0 threeD ceiling) w) :
    w.queued_full_in_memory ≤ ceiling + 2
    ∧ ∀ w', Step rate w w' →
        w.queued_full_in_memory < w'.queued_full_in_memory →
        w.queued_full_in_memory ≤ ceiling := by
  obtain ⟨⟨h1, h2⟩, hm⟩ := reachable_props rate reels0 threeD ceiling w hc h
  refine ⟨by omega, ?_⟩
  intro w' hs hlt
  have := step_count_le hs hlt
  omega

/-- Witness for C4: the fresh writer with ceiling 5 is within the bound. -/
theorem memory_ceiling_bound_witness :
    (Writer.mkInit [reelFresh] false 5).queued_full_in_memory ≤ 5 + 2 :=
  (memory_ceiling_bound 24 [reelFresh] false 5 (Writer.mkInit [reelFresh] false 5)
    (by decide) Reachable.refl).1

/-- C9: every reachable writer state has `_queued_full_in_memory` equal
to the number of FULL queue items whose payload is in memory, and
whenever the count exceeds the ceiling the spill loop's backwards search
succeeds - the `DCPOMATIC_ASSERT` guarding it never fires. -/
theorem count_invariant_spill_safety (rate : Nat) (reels0 : List ReelWriter)
    (threeD : Bool) (ceiling : Int) (w : Writer) (hc : 0 ≤ ceiling)
    (h : Reachable rate (Writer.mkInit reels0 threeD ceiling) w) :
    w.queued_full_in_memory = (List.countP elig w.queue : Int)
    ∧ (w.maximum_frames_in_memory < w.queued_full_in_memory →
        (findLastIdx? elig (sortQueue w.queue)).isSome = true) := by
  obtain ⟨⟨h1, h2⟩, hm⟩ := reachable_props rate reels0 threeD ceiling w hc h
  refine ⟨h1, fun hover => ?_⟩
  apply findLastIdx?_isSome
  rw [countP_sortQueue]
  omega

/-- Witness for C9: after one 3D `Both` submission over a ceiling of 1,
the count matches the two in-memory FULL items and the spill search
succeeds. -/
theorem count_invariant_spill_safety_witness :
    wAfterWrite.queued_full_in_memory = (List.countP elig wAfterWrite.queue : Int)
    ∧ (wAfterWrite.maximum_frames_in_memory < wAfterWrite.queued_full_in_memory →
        (findLastIdx? elig (sortQueue wAfterWrite.queue)).isSome = true) :=
  count_invariant_spill_safety 24 [reelFresh] true 1 wAfterWrite (by decide)
    (Reachable.tail Reachable.refl
      (Step.writeFull (Writer.mkInit [reelFresh] true 1) [5] 0 .Both wAfterWrite
        (by decide) (by decide)))

end DcpWriter
